import Mathlib

/-!
Verification of the Markdown-to-PDF conversion logic of `scripts/md_to_pdf.py`.

The script has three parts: `load_font` (probes a fixed candidate table of
font files over a fixed list of search directories, registering the first
hit and falling back to Helvetica), `convert_markdown_to_pdf` (a single-pass
line classifier that turns markdown text into an ordered list of layout
blocks), and a batch driver.  Here the line classifier and the font
resolver are embedded as pure Lean functions over `List Char` lines; the
external layout engine (pagination, PDF bytes) and the filesystem are out
of scope, the filesystem being abstracted as a boolean oracle where the
font resolver needs it.
-/

/-- The Unicode byte-order mark, stripped by the source's
`raw.strip` call on each line. -/
def bomChar : Char := '\uFEFF'

/-- Python `s.strip(chars)` for a single char set: remove every occurrence
of `c` from both ends of the list. -/
def stripChar (c : Char) (l : List Char) : List Char :=
  ((l.dropWhile fun a => a == c).reverse.dropWhile fun a => a == c).reverse

/-- `line = raw.strip(BOM)` of the source. -/
def stripBOM (raw : List Char) : List Char :=
  stripChar bomChar raw

/-- Python `line.startswith(pat)` on char lists. -/
def pfx : List Char → List Char → Bool
  | [], _ => true
  | _ :: _, [] => false
  | a :: as, b :: bs => a == b && pfx as bs

/-- The backtick character, written by codepoint. -/
def backtickChar : Char := Char.ofNat 96

/-- The code-fence marker `\x60\x60\x60` (three backticks). -/
def fenceMarker : List Char := [backtickChar, backtickChar, backtickChar]

/-- Heading marker for level 1. -/
def h1Marker : List Char := ['#', ' ']

/-- Heading marker for level 2. -/
def h2Marker : List Char := ['#', '#', ' ']

/-- Heading marker for level 3. -/
def h3Marker : List Char := ['#', '#', '#', ' ']

/-- Bullet marker variant `- `. -/
def dashMarker : List Char := ['-', ' ']

/-- Bullet marker variant `* `. -/
def starMarker : List Char := ['*', ' ']

/-- The separator substring `---` of the table heuristic. -/
def dashesPat : List Char := ['-', '-', '-']

/-- `line.startswith("\x60\x60\x60")`. -/
def isFence (line : List Char) : Bool :=
  pfx fenceMarker line

/-- `not line`: the line is empty after BOM stripping. -/
def isBlank (line : List Char) : Bool :=
  line.isEmpty

/-- `line.startswith(('- ', '* '))`. -/
def isBullet (line : List Char) : Bool :=
  pfx dashMarker line || pfx starMarker line

/-- Python `pat in l`: `pat` occurs as a contiguous sublist of `l`. -/
def hasSub (pat : List Char) : List Char → Bool
  | [] => pfx pat []
  | c :: rest => pfx pat (c :: rest) || hasSub pat rest

/-- Python `"|" in line`. -/
def hasPipe (line : List Char) : Bool :=
  line.any fun c => c == '|'

/-- Python `line.count("|")`. -/
def countPipe : List Char → Nat
  | [] => 0
  | c :: rest => (if c == '|' then 1 else 0) + countPipe rest

/-- The table heuristic of the source:
`"|" in line and ("---" in line or line.count("|") >= 2)`. -/
def isTable (line : List Char) : Bool :=
  hasPipe line && (hasSub dashesPat line || decide (2 ≤ countPipe line))

/-- A paragraph style: the attributes of `ParagraphStyle` the script sets.
`alignment` is the reportlab enum value (`TA_LEFT = 0`). -/
structure Style where
  fontName : String
  fontSize : Nat
  leading : Nat
  spaceAfter : Nat
  alignment : Nat
  deriving DecidableEq, Repr

/-- The fallback font family of `load_font`. -/
def helveticaName : String := "Helvetica"

/-- The fixed monospace family used by the `Code` style. -/
def courierName : String := "Courier"

/-- The `NormalCJK` style: `fontName=base_font, fontSize=11, leading=15,
alignment=TA_LEFT`. -/
def normalStyle (baseFont : String) : Style :=
  { fontName := baseFont
    fontSize := 11
    leading := 15
    spaceAfter := 0
    alignment := 0 }

/-- The `H1` style: `parent=normal, fontSize=18, leading=22, spaceAfter=8`. -/
def h1Style (baseFont : String) : Style :=
  { normalStyle baseFont with fontSize := 18, leading := 22, spaceAfter := 8 }

/-- The `H2` style: `parent=normal, fontSize=16, leading=20, spaceAfter=6`. -/
def h2Style (baseFont : String) : Style :=
  { normalStyle baseFont with fontSize := 16, leading := 20, spaceAfter := 6 }

/-- The `H3` style: `parent=normal, fontSize=14, leading=18, spaceAfter=4`. -/
def h3Style (baseFont : String) : Style :=
  { normalStyle baseFont with fontSize := 14, leading := 18, spaceAfter := 4 }

/-- The `Code` style: `parent=normal, fontName="Courier", fontSize=9,
leading=12`. -/
def codeStyle (baseFont : String) : Style :=
  { normalStyle baseFont with
    fontName := courierName
    fontSize := 9
    leading := 12 }

/-- One entry of the `story` list: the flowables the script appends.
`paragraph` covers both plain paragraphs and headings (which are
`Paragraph` flowables with a heading style); `preformatted` covers both
closed code fences and table-like lines; `listFlowable` is the grouped
bullet list (each item a paragraph in the given style) with its
`leftIndent`; `spacer` carries the `Spacer(w, h)` arguments. -/
inductive Block where
  | paragraph (content : List Char) (style : Style)
  | spacer (w : Nat) (h : Nat)
  | listFlowable (items : List (List Char)) (itemStyle : Style) (leftIndent : Nat)
  | preformatted (content : List Char) (style : Style)
  deriving DecidableEq, Repr

/-- `"\n".join(code_buf)`. -/
def joinNL : List (List Char) → List Char
  | [] => []
  | [l] => l
  | l :: ls => l ++ '\n' :: joinNL ls

/-- The blocks `flush_bullets` appends: nothing when the accumulator is
empty, otherwise one `ListFlowable` (items in accumulation order, normal
style, `leftIndent=12`) followed by `Spacer(1, 4)`. -/
def flush_bullets (baseFont : String) (buf : List (List Char)) : List Block :=
  if buf.isEmpty then []
  else [Block.listFlowable buf (normalStyle baseFont) 12, Block.spacer 1 4]

/-- The mutable state of the conversion loop: the `story` list, the bullet
accumulator, the `in_code` flag and the code accumulator. -/
structure ConvState where
  story : List Block
  bulletBuf : List (List Char)
  inCode : Bool
  codeBuf : List (List Char)
  deriving DecidableEq, Repr

/-- The state before the first line. -/
def startState : ConvState :=
  { story := []
    bulletBuf := []
    inCode := false
    codeBuf := [] }

/-- One iteration of the `for raw in md_lines(md_path)` loop, in the
source's branch order: fence toggle, in-code accumulation, blank line,
headings 1-3, bullet accumulation, table heuristic, paragraph fallback. -/
def step (baseFont : String) (s : ConvState) (raw : List Char) : ConvState :=
  if isFence (stripBOM raw) then
    if !s.inCode then
      { story := s.story ++ flush_bullets baseFont s.bulletBuf
        bulletBuf := []
        inCode := true
        codeBuf := [] }
    else
      { story := s.story
          ++ [Block.preformatted (joinNL s.codeBuf) (codeStyle baseFont),
              Block.spacer 1 6]
        bulletBuf := s.bulletBuf
        inCode := false
        codeBuf := s.codeBuf }
  else if s.inCode then
    { s with codeBuf := s.codeBuf ++ [raw] }
  else if isBlank (stripBOM raw) then
    { story := s.story ++ flush_bullets baseFont s.bulletBuf ++ [Block.spacer 1 6]
      bulletBuf := []
      inCode := false
      codeBuf := s.codeBuf }
  else if pfx h1Marker (stripBOM raw) then
    { story := s.story ++ flush_bullets baseFont s.bulletBuf
        ++ [Block.paragraph ((stripBOM raw).drop 2) (h1Style baseFont)]
      bulletBuf := []
      inCode := false
      codeBuf := s.codeBuf }
  else if pfx h2Marker (stripBOM raw) then
    { story := s.story ++ flush_bullets baseFont s.bulletBuf
        ++ [Block.paragraph ((stripBOM raw).drop 3) (h2Style baseFont)]
      bulletBuf := []
      inCode := false
      codeBuf := s.codeBuf }
  else if pfx h3Marker (stripBOM raw) then
    { story := s.story ++ flush_bullets baseFont s.bulletBuf
        ++ [Block.paragraph ((stripBOM raw).drop 4) (h3Style baseFont)]
      bulletBuf := []
      inCode := false
      codeBuf := s.codeBuf }
  else if isBullet (stripBOM raw) then
    { s with bulletBuf := s.bulletBuf ++ [(stripBOM raw).drop 2] }
  else if isTable (stripBOM raw) then
    { story := s.story ++ flush_bullets baseFont s.bulletBuf
        ++ [Block.preformatted raw (codeStyle baseFont)]
      bulletBuf := []
      inCode := false
      codeBuf := s.codeBuf }
  else
    { story := s.story ++ flush_bullets baseFont s.bulletBuf
        ++ [Block.paragraph (stripBOM raw) (normalStyle baseFont)]
      bulletBuf := []
      inCode := false
      codeBuf := s.codeBuf }

/-- The loop over all lines, from a given state. -/
def processLines (baseFont : String) (s : ConvState) (lines : List (List Char)) :
    ConvState :=
  lines.foldl (step baseFont) s

/-- The block sequence `convert_markdown_to_pdf` hands to `doc.build`:
process every line from the start state, then the final
`flush_bullets(bullet_buf)`.  Building the PDF from the blocks is the
external layout engine's job and is not modelled. -/
def convert_markdown_to_pdf (baseFont : String) (lines : List (List Char)) :
    List Block :=
  (processLines baseFont startState lines).story
    ++ flush_bullets baseFont (processLines baseFont startState lines).bulletBuf

/-- Split a char list at every newline, `String.splitOn`-style (an empty
input gives one empty part). -/
def splitNL : List Char → List (List Char)
  | [] => [[]]
  | c :: rest =>
    if c == '\n' then [] :: splitNL rest
    else
      match splitNL rest with
      | [] => [c] :: []
      | l :: ls => (c :: l) :: ls

/-- `md_lines`: iterating a file yields each physical line with its
trailing newline removed (`line.rstrip("\n")`); a terminating newline
yields no extra empty line, and an empty file yields no lines. -/
def md_lines (text : List Char) : List (List Char) :=
  if (splitNL text).getLast? = some [] then (splitNL text).dropLast
  else splitNL text

/-- The filesystem and font registry as `load_font` sees them:
`fileExists p` is `Path(p).exists()`, and `regOk fam p` is whether
`pdfmetrics.registerFont(TTFont(fam, p))` succeeds rather than raising. -/
structure FsEnv where
  fileExists : String → Bool
  regOk : String → String → Bool

/-- The candidate `(family, filename)` table of `load_font`, in source
order. -/
def fontCandidates : List (String × String) :=
  [( "MicrosoftJhengHei", "msjh.ttc"),
   ( "MicrosoftJhengHei", "msjh.ttf"),
   ( "NotoSansCJK", "NotoSansCJK-Regular.ttc"),
   ( "NotoSansTC", "NotoSansTC-Regular.otf")]

/-- The search directories, in source order: `C:/Windows/Fonts`, then the
working directory's `fonts` subdirectory, then the working directory
itself (`cwd` abstracts `Path.cwd()`). -/
def searchBases (cwd : String) : List String :=
  [( "C:/Windows/Fonts" : String), cwd ++ ( "/fonts" : String), cwd]

/-- `base / file` path join. -/
def joinPath (base file : String) : String :=
  base ++ ( "/" : String) ++ file

/-- The inner loop of `load_font` over the search directories for one
candidate: if the file exists, try to register it and return the family,
swallowing a registration failure and moving on; otherwise move on. -/
def tryBases (env : FsEnv) (family file : String) : List String → Option String
  | [] => none
  | base :: rest =>
    if env.fileExists (joinPath base file) then
      if env.regOk family (joinPath base file) then some family
      else tryBases env family file rest
    else tryBases env family file rest

/-- The outer loop of `load_font` over the candidate table. -/
def tryCandidates (env : FsEnv) (cwd : String) :
    List (String × String) → String
  | [] => helveticaName
  | cand :: rest =>
    match tryBases env cand.1 cand.2 (searchBases cwd) with
    | some family => family
    | none => tryCandidates env cwd rest

/-- `load_font`: first successfully registered candidate family, else
`"Helvetica"`. -/
def load_font (env : FsEnv) (cwd : String) : String :=
  tryCandidates env cwd fontCandidates

/-- The full probe order: every `(family, path)` pair `load_font` can
look at, candidates outermost, search directories innermost. -/
def fontProbeOrder (cwd : String) : List (String × String) :=
  (fontCandidates.map fun cand =>
    (searchBases cwd).map fun base => (cand.1, joinPath base cand.2)).flatten

/-- Whether a block is the grouped bullet-list flowable. -/
def isListBlock : Block → Bool
  | Block.listFlowable _ _ _ => true
  | _ => false

/-- A line that the Normal-mode classifier treats as a heading (any of the
three marker prefixes, on the BOM-stripped line). -/
def isHeadingLine (raw : List Char) : Bool :=
  pfx h1Marker (stripBOM raw) || pfx h2Marker (stripBOM raw)
    || pfx h3Marker (stripBOM raw)

/-- The single block a heading line contributes: the remainder after the
marker, in the style of its level (checked in source order). -/
def headingBlockOf (baseFont : String) (raw : List Char) : Block :=
  if pfx h1Marker (stripBOM raw) then
    Block.paragraph ((stripBOM raw).drop 2) (h1Style baseFont)
  else if pfx h2Marker (stripBOM raw) then
    Block.paragraph ((stripBOM raw).drop 3) (h2Style baseFont)
  else if pfx h3Marker (stripBOM raw) then
    Block.paragraph ((stripBOM raw).drop 4) (h3Style baseFont)
  else
    Block.paragraph (stripBOM raw) (normalStyle baseFont)

/-- Blank out the font family of a style, keeping every other attribute. -/
def clearFont (st : Style) : Style :=
  { st with fontName := ( "" : String) }

/-- Erase the font family everywhere in a block, keeping kind, content,
order and all non-font style attributes. -/
def eraseFont : Block → Block
  | Block.paragraph c st => Block.paragraph c (clearFont st)
  | Block.spacer w h => Block.spacer w h
  | Block.listFlowable items st i => Block.listFlowable items (clearFont st) i
  | Block.preformatted c st => Block.preformatted c (clearFont st)

/-- The normal style with the font blanked out. -/
def erasedNormal : Style :=
  { fontName := ( "" : String)
    fontSize := 11
    leading := 15
    spaceAfter := 0
    alignment := 0 }

/-- The worked example input of the specification. -/
def exampleInputText : List Char :=
  ( "# Title\n\nHello world\n- a\n- b\n\n```\ncode here\n```\n").toList

/-- A conversion state that is inside a code fence. -/
def inCodeState : ConvState :=
  { story := []
    bulletBuf := []
    inCode := true
    codeBuf := [] }

/-- Concrete line: a bullet item. -/
def bulletLineA : List Char := ( "- a").toList

/-- Concrete line: plain text. -/
def plainXLine : List Char := ( "x").toList

/-- Concrete line: a heading line that is no fence. -/
def hashHiLine : List Char := ( "# hi").toList

/-- Concrete line: whitespace only (non-empty, blank after a whitespace
trim but not after the BOM strip). -/
def spacesLine : List Char := ( "   ").toList

/-- Concrete line: a table-like row with three pipes and no dashes. -/
def pipeRowLine : List Char := ( "| a | b |").toList

/-- Concrete line: a level-1 heading. -/
def h1LineA : List Char := ( "# A").toList

/-- Concrete line: a level-2 heading. -/
def h2LineB : List Char := ( "## B").toList

/-- Concrete heading-only input. -/
def headingLinesEx : List (List Char) := [h1LineA, h2LineB]

/-- Concrete line: code content inside a fence. -/
def codeHereLine : List Char := ( "code here").toList

/-- Concrete line: an opening fence with a language info string. -/
def fencePyLine : List Char := ( "```python").toList

/-! ## Helper lemmas about the classifier and one loop iteration -/

theorem pfx_head (a : Char) (as l : List Char) (h : pfx (a :: as) l = true) :
    ∃ t, l = a :: t := by
  cases l with
  | nil => simp [pfx] at h
  | cons b bs =>
    simp only [pfx, Bool.and_eq_true, beq_iff_eq] at h
    exact ⟨bs, by rw [h.1]⟩

theorem isFence_cons_false (c : Char) (t : List Char)
    (h : (backtickChar == c) = false) : isFence (c :: t) = false := by
  simp [isFence, fenceMarker, pfx, h]

theorem h1_cons_false (c : Char) (t : List Char)
    (h : (('#' : Char) == c) = false) : pfx h1Marker (c :: t) = false := by
  simp [h1Marker, pfx, h]

theorem h2_cons_false (c : Char) (t : List Char)
    (h : (('#' : Char) == c) = false) : pfx h2Marker (c :: t) = false := by
  simp [h2Marker, pfx, h]

theorem h3_cons_false (c : Char) (t : List Char)
    (h : (('#' : Char) == c) = false) : pfx h3Marker (c :: t) = false := by
  simp [h3Marker, pfx, h]

theorem isBlank_cons_false (c : Char) (t : List Char) :
    isBlank (c :: t) = false := rfl

theorem step_inCode (f : String) (s : ConvState) (raw : List Char)
    (hc : s.inCode = true) (hf : isFence (stripBOM raw) = false) :
    step f s raw = { s with codeBuf := s.codeBuf ++ [raw] } := by
  simp [step, hf, hc]

theorem step_fence_open (f : String) (s : ConvState) (raw : List Char)
    (hc : s.inCode = false) (hf : isFence (stripBOM raw) = true) :
    step f s raw =
      { story := s.story ++ flush_bullets f s.bulletBuf
        bulletBuf := []
        inCode := true
        codeBuf := [] } := by
  simp [step, hf, hc]

theorem step_bullet (f : String) (s : ConvState) (raw : List Char)
    (hc : s.inCode = false) (hb : isBullet (stripBOM raw) = true) :
    step f s raw = { s with bulletBuf := s.bulletBuf ++ [(stripBOM raw).drop 2] } := by
  obtain ⟨c, t, hct, hcv⟩ :
      ∃ c t, stripBOM raw = c :: t ∧ (c = '-' ∨ c = '*') := by
    have hb' := hb
    simp only [isBullet, Bool.or_eq_true] at hb'
    rcases hb' with h | h
    · simp only [dashMarker] at h
      obtain ⟨t, ht⟩ := pfx_head _ _ _ h
      exact ⟨'-', t, ht, Or.inl rfl⟩
    · simp only [starMarker] at h
      obtain ⟨t, ht⟩ := pfx_head _ _ _ h
      exact ⟨'*', t, ht, Or.inr rfl⟩
  have hf : isFence (stripBOM raw) = false := by
    rw [hct]; apply isFence_cons_false
    rcases hcv with rfl | rfl <;> decide
  have hbl : isBlank (stripBOM raw) = false := by rw [hct]; rfl
  have hh1 : pfx h1Marker (stripBOM raw) = false := by
    rw [hct]; apply h1_cons_false
    rcases hcv with rfl | rfl <;> decide
  have hh2 : pfx h2Marker (stripBOM raw) = false := by
    rw [hct]; apply h2_cons_false
    rcases hcv with rfl | rfl <;> decide
  have hh3 : pfx h3Marker (stripBOM raw) = false := by
    rw [hct]; apply h3_cons_false
    rcases hcv with rfl | rfl <;> decide
  simp [step, hf, hc, hbl, hh1, hh2, hh3, hb]

theorem step_heading (f : String) (s : ConvState) (raw : List Char)
    (hc : s.inCode = false) (hbuf : s.bulletBuf = [])
    (hh : isHeadingLine raw = true) :
    step f s raw = { s with story := s.story ++ [headingBlockOf f raw] } := by
  obtain ⟨t, hct⟩ : ∃ t, stripBOM raw = '#' :: t := by
    have hh' := hh
    simp only [isHeadingLine, Bool.or_eq_true] at hh'
    rcases hh' with (h | h) | h
    · simpa only [h1Marker] using pfx_head _ _ _ h
    · simpa only [h2Marker] using pfx_head _ _ _ h
    · simpa only [h3Marker] using pfx_head _ _ _ h
  have hf : isFence (stripBOM raw) = false := by
    rw [hct]; exact isFence_cons_false _ _ (by decide)
  have hbl : isBlank (stripBOM raw) = false := by rw [hct]; rfl
  by_cases H1 : pfx h1Marker (stripBOM raw) = true
  · simp [step, headingBlockOf, hf, hc, hbl, hbuf, flush_bullets, H1]
  · by_cases H2 : pfx h2Marker (stripBOM raw) = true
    · simp [step, headingBlockOf, hf, hc, hbl, hbuf, flush_bullets, H1, H2]
    · have H3 : pfx h3Marker (stripBOM raw) = true := by
        have hh' := hh
        simp only [isHeadingLine, Bool.or_eq_true] at hh'
        rcases hh' with (h | h) | h
        · exact absurd h H1
        · exact absurd h H2
        · exact h
      simp [step, headingBlockOf, hf, hc, hbl, hbuf, flush_bullets, H1, H2, H3]

theorem step_nonbullet (f : String) (s : ConvState) (raw : List Char)
    (hc : s.inCode = false) (hnb : isBullet (stripBOM raw) = false) :
    ∃ rest inC cB,
      step f s raw =
        { story := s.story ++ flush_bullets f s.bulletBuf ++ rest
          bulletBuf := []
          inCode := inC
          codeBuf := cB } ∧
      ∀ b ∈ rest, isListBlock b = false := by
  by_cases hf : isFence (stripBOM raw) = true
  · exact ⟨[], true, [], by simp [step, hf, hc], by simp⟩
  by_cases hbl : isBlank (stripBOM raw) = true
  · exact ⟨[Block.spacer 1 6], false, s.codeBuf,
      by simp [step, hf, hbl, hc], by simp [isListBlock]⟩
  by_cases hh1 : pfx h1Marker (stripBOM raw) = true
  · exact ⟨[Block.paragraph ((stripBOM raw).drop 2) (h1Style f)], false, s.codeBuf,
      by simp [step, hf, hbl, hc, hh1], by simp [isListBlock]⟩
  by_cases hh2 : pfx h2Marker (stripBOM raw) = true
  · exact ⟨[Block.paragraph ((stripBOM raw).drop 3) (h2Style f)], false, s.codeBuf,
      by simp [step, hf, hbl, hc, hh1, hh2], by simp [isListBlock]⟩
  by_cases hh3 : pfx h3Marker (stripBOM raw) = true
  · exact ⟨[Block.paragraph ((stripBOM raw).drop 4) (h3Style f)], false, s.codeBuf,
      by simp [step, hf, hbl, hc, hh1, hh2, hh3], by simp [isListBlock]⟩
  by_cases hT : isTable (stripBOM raw) = true
  · exact ⟨[Block.preformatted raw (codeStyle f)], false, s.codeBuf,
      by simp [step, hf, hbl, hc, hh1, hh2, hh3, hnb, hT], by simp [isListBlock]⟩
  · exact ⟨[Block.paragraph (stripBOM raw) (normalStyle f)], false, s.codeBuf,
      by simp [step, hf, hbl, hc, hh1, hh2, hh3, hnb, hT], by simp [isListBlock]⟩

theorem processLines_bullets (f : String) (run : List (List Char)) :
    ∀ s : ConvState, s.inCode = false →
    (∀ r ∈ run, isBullet (stripBOM r) = true) →
    processLines f s run =
      { s with bulletBuf := s.bulletBuf ++ run.map fun r => (stripBOM r).drop 2 } := by
  induction run with
  | nil => intro s _ _; simp [processLines]
  | cons r rest ih =>
    intro s hc hall
    have hstep := step_bullet f s r hc (hall r (List.mem_cons_self r rest))
    have hrec := ih { s with bulletBuf := s.bulletBuf ++ [(stripBOM r).drop 2] }
      (by simp [hc]) (fun x hx => hall x (List.mem_cons_of_mem r hx))
    simp only [processLines, List.foldl_cons] at hrec ⊢
    rw [hstep, hrec]
    simp

theorem processLines_codeAcc (f : String) (rest : List (List Char)) :
    ∀ s : ConvState, s.inCode = true →
    (∀ r ∈ rest, isFence (stripBOM r) = false) →
    processLines f s rest = { s with codeBuf := s.codeBuf ++ rest } := by
  induction rest with
  | nil => intro s _ _; simp [processLines]
  | cons r rs ih =>
    intro s hc hall
    have hstep := step_inCode f s r hc (hall r (List.mem_cons_self r rs))
    have hrec := ih { s with codeBuf := s.codeBuf ++ [r] }
      (by simp [hc]) (fun x hx => hall x (List.mem_cons_of_mem r hx))
    simp only [processLines, List.foldl_cons] at hrec ⊢
    rw [hstep, hrec]
    simp

theorem processLines_headings (f : String) (lines : List (List Char)) :
    ∀ s : ConvState, s.inCode = false → s.bulletBuf = [] →
    (∀ r ∈ lines, isHeadingLine r = true) →
    processLines f s lines =
      { s with story := s.story ++ lines.map (headingBlockOf f) } := by
  induction lines with
  | nil => intro s _ _ _; simp [processLines]
  | cons r rest ih =>
    intro s hc hbuf hall
    have hstep := step_heading f s r hc hbuf (hall r (List.mem_cons_self r rest))
    have hrec := ih { s with story := s.story ++ [headingBlockOf f r] }
      (by simp [hc]) (by simp [hbuf]) (fun x hx => hall x (List.mem_cons_of_mem r hx))
    simp only [processLines, List.foldl_cons] at hrec ⊢
    rw [hstep, hrec]
    simp

theorem flush_map_eraseFont (f : String) (buf : List (List Char)) :
    (flush_bullets f buf).map eraseFont =
      if buf.isEmpty then []
      else [Block.listFlowable buf erasedNormal 12, Block.spacer 1 4] := by
  by_cases h : buf.isEmpty <;>
    simp [flush_bullets, h, eraseFont, clearFont, normalStyle, erasedNormal]

theorem step_eraseFont (f g : String) (s t : ConvState) (raw : List Char)
    (hbuf : s.bulletBuf = t.bulletBuf) (hin : s.inCode = t.inCode)
    (hcode : s.codeBuf = t.codeBuf)
    (hstory : s.story.map eraseFont = t.story.map eraseFont) :
    (step f s raw).bulletBuf = (step g t raw).bulletBuf ∧
    (step f s raw).inCode = (step g t raw).inCode ∧
    (step f s raw).codeBuf = (step g t raw).codeBuf ∧
    (step f s raw).story.map eraseFont = (step g t raw).story.map eraseFont := by
  unfold step
  rw [← hin]
  split_ifs with h1 h2 h3 h4 h5 h6 h7 h8 h9 <;>
    simp_all [List.map_append, flush_map_eraseFont, eraseFont, clearFont,
      codeStyle, normalStyle, h1Style, h2Style, h3Style]

theorem processLines_eraseFont (f g : String) (lines : List (List Char)) :
    ∀ s t : ConvState, s.bulletBuf = t.bulletBuf → s.inCode = t.inCode →
    s.codeBuf = t.codeBuf → s.story.map eraseFont = t.story.map eraseFont →
    (processLines f s lines).bulletBuf = (processLines g t lines).bulletBuf ∧
    (processLines f s lines).inCode = (processLines g t lines).inCode ∧
    (processLines f s lines).codeBuf = (processLines g t lines).codeBuf ∧
    (processLines f s lines).story.map eraseFont =
      (processLines g t lines).story.map eraseFont := by
  induction lines with
  | nil => intro s t h1 h2 h3 h4; exact ⟨h1, h2, h3, h4⟩
  | cons r rest ih =>
    intro s t h1 h2 h3 h4
    obtain ⟨k1, k2, k3, k4⟩ := step_eraseFont f g s t r h1 h2 h3 h4
    simpa only [processLines, List.foldl_cons] using
      ih (step f s r) (step g t r) k1 k2 k3 k4

theorem tryBases_eq_find (env : FsEnv) (family file : String)
    (bases : List String) :
    tryBases env family file bases =
      ((bases.map fun b => (family, joinPath b file)).find? fun fp =>
          env.fileExists fp.2 && env.regOk fp.1 fp.2).map Prod.fst := by
  induction bases with
  | nil => rfl
  | cons b rest ih =>
    by_cases he : env.fileExists (joinPath b file) = true
    · by_cases hr : env.regOk family (joinPath b file) = true
      · simp [tryBases, List.find?, he, hr]
      · rw [Bool.not_eq_true] at hr
        simp [tryBases, List.find?, he, hr, ih]
    · rw [Bool.not_eq_true] at he
      simp [tryBases, List.find?, he, ih]

theorem tryCandidates_eq (env : FsEnv) (cwd : String)
    (cands : List (String × String)) :
    tryCandidates env cwd cands =
      (((cands.map fun cand => (searchBases cwd).map fun base =>
          (cand.1, joinPath base cand.2)).flatten.find? fun fp =>
            env.fileExists fp.2 && env.regOk fp.1 fp.2).map Prod.fst).getD
        helveticaName := by
  induction cands with
  | nil => rfl
  | cons c rest ih =>
    have hb := tryBases_eq_find env c.1 c.2 (searchBases cwd)
    cases hfind : ((searchBases cwd).map fun base => (c.1, joinPath base c.2)).find?
        (fun fp => env.fileExists fp.2 && env.regOk fp.1 fp.2) with
    | none =>
      rw [hfind] at hb
      simp only [Option.map_none'] at hb
      simp [tryCandidates, hb, ih, List.find?_append, hfind]
    | some fp =>
      rw [hfind] at hb
      simp only [Option.map_some'] at hb
      simp [tryCandidates, hb, List.find?_append, hfind]

/-! ## The claims -/

/-- Claim C1: converting the input text
`# Title` / blank / `Hello world` / `- a` / `- b` / blank / fence /
`code here` / fence (each line newline-terminated) produces exactly the
block sequence Heading1("Title"), Spacer, Paragraph("Hello world"),
List(["a","b"]), Spacer, Spacer, Code("code here"), Spacer, in that
order, for any resolved base font. -/
theorem c1_example_block_sequence (f : String) :
    convert_markdown_to_pdf f (md_lines exampleInputText) =
      [Block.paragraph (( "Title").toList) (h1Style f),
       Block.spacer 1 6,
       Block.paragraph (( "Hello world").toList) (normalStyle f),
       Block.listFlowable [( "a").toList, ( "b").toList] (normalStyle f) 12,
       Block.spacer 1 4,
       Block.spacer 1 6,
       Block.preformatted (( "code here").toList) (codeStyle f),
       Block.spacer 1 6] := by
  rfl

/-- Claim C3: while the transformer is inside a code fence, a line that is
not itself a fence marker is never classified as heading, bullet, blank,
table row or paragraph: one loop iteration appends the raw line verbatim
(no BOM stripping, no trimming) to the code accumulator and changes
nothing else — no block is emitted. -/
theorem c3_incode_verbatim (f : String) (s : ConvState) (raw : List Char)
    (hc : s.inCode = true) (hf : isFence (stripBOM raw) = false) :
    step f s raw = { s with codeBuf := s.codeBuf ++ [raw] } := by
  simp [step, hf, hc]

/-- Witness for C3: inside a fence, the heading-looking line `# hi` is
appended raw to the code accumulator and the story is untouched. -/
theorem c3_incode_verbatim_witness :
    step helveticaName inCodeState hashHiLine =
      { inCodeState with codeBuf := inCodeState.codeBuf ++ [hashHiLine] } :=
  c3_incode_verbatim helveticaName inCodeState hashHiLine rfl (by decide)

/-- Claim C4: a Normal-mode line matching no earlier rule (not fence,
blank, heading, bullet or table-like) — whitespace-only-but-nonempty
lines included — makes the transformer flush bullets and emit exactly one
paragraph block whose content is the trimmed (BOM-stripped) line.  The
source trims only the BOM, so the whitespace survives into the paragraph
content, exactly as the specification's edge-case note describes. -/
theorem c4_paragraph_fallback (f : String) (s : ConvState) (raw : List Char)
    (hc : s.inCode = false)
    (hf : isFence (stripBOM raw) = false)
    (hbl : isBlank (stripBOM raw) = false)
    (hh1 : pfx h1Marker (stripBOM raw) = false)
    (hh2 : pfx h2Marker (stripBOM raw) = false)
    (hh3 : pfx h3Marker (stripBOM raw) = false)
    (hb : isBullet (stripBOM raw) = false)
    (ht : isTable (stripBOM raw) = false) :
    step f s raw =
      { story := s.story ++ flush_bullets f s.bulletBuf
          ++ [Block.paragraph (stripBOM raw) (normalStyle f)]
        bulletBuf := []
        inCode := false
        codeBuf := s.codeBuf } := by
  simp [step, hc, hf, hbl, hh1, hh2, hh3, hb, ht]

/-- Witness for C4: the whitespace-only line of three spaces (non-empty
before and after the BOM strip) becomes one paragraph block holding the
three spaces. -/
theorem c4_paragraph_fallback_witness :
    step helveticaName startState spacesLine =
      { story := startState.story ++ flush_bullets helveticaName startState.bulletBuf
          ++ [Block.paragraph (stripBOM spacesLine) (normalStyle helveticaName)]
        bulletBuf := []
        inCode := false
        codeBuf := startState.codeBuf } :=
  c4_paragraph_fallback helveticaName startState spacesLine rfl (by decide)
    (by decide) (by decide) (by decide) (by decide) (by decide) (by decide)

/-- Claim C5: a Normal-mode line that is not fence, blank, heading or
bullet, contains at least one pipe, and contains `---` or at least two
pipes, is classified table-like: bullets are flushed and exactly one
preformatted block in the monospace code style is emitted containing the
original unstripped line `raw`. -/
theorem c5_table_row (f : String) (s : ConvState) (raw : List Char)
    (hc : s.inCode = false)
    (hf : isFence (stripBOM raw) = false)
    (hbl : isBlank (stripBOM raw) = false)
    (hh1 : pfx h1Marker (stripBOM raw) = false)
    (hh2 : pfx h2Marker (stripBOM raw) = false)
    (hh3 : pfx h3Marker (stripBOM raw) = false)
    (hb : isBullet (stripBOM raw) = false)
    (hp : hasPipe (stripBOM raw) = true)
    (hsep : hasSub dashesPat (stripBOM raw) = true ∨ 2 ≤ countPipe (stripBOM raw)) :
    step f s raw =
      { story := s.story ++ flush_bullets f s.bulletBuf
          ++ [Block.preformatted raw (codeStyle f)]
        bulletBuf := []
        inCode := false
        codeBuf := s.codeBuf } := by
  have ht : isTable (stripBOM raw) = true := by
    rcases hsep with h | h <;> simp [isTable, hp, h]
  simp [step, hc, hf, hbl, hh1, hh2, hh3, hb, ht]

/-- Witness for C5: the row with three pipes and no `---` qualifies via
the pipe-count arm alone and is rendered as one preformatted block. -/
theorem c5_table_row_witness :
    step helveticaName startState pipeRowLine =
      { story := startState.story ++ flush_bullets helveticaName startState.bulletBuf
          ++ [Block.preformatted pipeRowLine (codeStyle helveticaName)]
        bulletBuf := []
        inCode := false
        codeBuf := startState.codeBuf } :=
  c5_table_row helveticaName startState pipeRowLine rfl (by decide) (by decide)
    (by decide) (by decide) (by decide) (by decide) (by decide)
    (Or.inr (by decide))

/-- Claim C10: a Normal-mode line that begins with three backticks —
whatever follows them, e.g. the info string of a fence such as
three-backticks-python — makes the transformer enter code mode exactly as
a bare fence does: bullets are flushed, the code accumulator is emptied,
and the resulting state is identical to the one a bare fence produces, so
the text after the backticks appears in no emitted block. -/
theorem c10_fence_info_string (f : String) (s : ConvState) (raw : List Char)
    (hc : s.inCode = false) (hf : isFence (stripBOM raw) = true) :
    step f s raw =
      { story := s.story ++ flush_bullets f s.bulletBuf
        bulletBuf := []
        inCode := true
        codeBuf := [] } ∧
    step f s raw = step f s fenceMarker := by
  have h1 := step_fence_open f s raw hc hf
  have h2 := step_fence_open f s fenceMarker hc (by decide)
  exact ⟨h1, h1.trans h2.symm⟩

/-- Witness for C10: the opening line with info string python enters code
mode with an empty accumulator, matching the bare-fence transition. -/
theorem c10_fence_info_string_witness :
    step helveticaName startState fencePyLine =
      { story := startState.story ++ flush_bullets helveticaName startState.bulletBuf
        bulletBuf := []
        inCode := true
        codeBuf := [] } ∧
    step helveticaName startState fencePyLine = step helveticaName startState fenceMarker :=
  c10_fence_info_string helveticaName startState fencePyLine rfl (by decide)

/-- Claim C2: starting with an empty accumulator in Normal mode, a
non-empty contiguous run of bullet lines closed by a non-bullet line (or
by end-of-input) emits exactly one grouped list block with one item per
bullet line — the text after the two-character marker, in accumulation
order — followed by exactly one spacer; whatever the closing line itself
appends contains no further list block, and flushing an empty accumulator
appends no block and no spacer. -/
theorem c2_bullet_run_grouping (f : String) (s : ConvState)
    (run : List (List Char)) (t : List Char)
    (hc : s.inCode = false) (hbuf : s.bulletBuf = [])
    (hne : run ≠ []) (hall : ∀ r ∈ run, isBullet (stripBOM r) = true)
    (ht : isBullet (stripBOM t) = false) :
    (∃ rest inC cB,
      processLines f s (run ++ [t]) =
        { story := s.story
            ++ [Block.listFlowable (run.map fun r => (stripBOM r).drop 2)
                  (normalStyle f) 12,
                Block.spacer 1 4] ++ rest
          bulletBuf := []
          inCode := inC
          codeBuf := cB } ∧
      ∀ b ∈ rest, isListBlock b = false) ∧
    (processLines f s run).story
        ++ flush_bullets f (processLines f s run).bulletBuf =
      s.story
        ++ [Block.listFlowable (run.map fun r => (stripBOM r).drop 2)
              (normalStyle f) 12,
            Block.spacer 1 4] ∧
    flush_bullets f [] = [] := by
  have hrun := processLines_bullets f run s hc hall
  have hne' : (run.map fun r => (stripBOM r).drop 2).isEmpty = false := by
    cases run with
    | nil => exact absurd rfl hne
    | cons a l => rfl
  have hflush : flush_bullets f (run.map fun r => (stripBOM r).drop 2) =
      [Block.listFlowable (run.map fun r => (stripBOM r).drop 2)
         (normalStyle f) 12,
       Block.spacer 1 4] := by
    simp [flush_bullets, hne']
  refine ⟨?_, ?_, rfl⟩
  · have happ : processLines f s (run ++ [t]) =
        step f (processLines f s run) t := by
      simp [processLines, List.foldl_append]
    obtain ⟨rest, inC, cB, hstep, hrest⟩ :=
      step_nonbullet f (processLines f s run) t (by rw [hrun]; simpa using hc) ht
    refine ⟨rest, inC, cB, ?_, hrest⟩
    rw [happ, hstep, hrun]
    simp [hbuf, hflush]
  · rw [hrun]
    simp [hbuf, hflush]

/-- Witness for C2: the single-line run `- a` closed by the plain line
`x` produces exactly one list block with item `a` and one spacer. -/
theorem c2_bullet_run_grouping_witness :
    (∃ rest inC cB,
      processLines helveticaName startState ([bulletLineA] ++ [plainXLine]) =
        { story := startState.story
            ++ [Block.listFlowable ([bulletLineA].map fun r => (stripBOM r).drop 2)
                  (normalStyle helveticaName) 12,
                Block.spacer 1 4] ++ rest
          bulletBuf := []
          inCode := inC
          codeBuf := cB } ∧
      ∀ b ∈ rest, isListBlock b = false) ∧
    (processLines helveticaName startState [bulletLineA]).story
        ++ flush_bullets helveticaName
            (processLines helveticaName startState [bulletLineA]).bulletBuf =
      startState.story
        ++ [Block.listFlowable ([bulletLineA].map fun r => (stripBOM r).drop 2)
              (normalStyle helveticaName) 12,
            Block.spacer 1 4] ∧
    flush_bullets helveticaName [] = [] :=
  c2_bullet_run_grouping helveticaName startState [bulletLineA] plainXLine rfl
    rfl (by decide) (by decide) (by decide)

/-- Claim C6: on an input consisting solely of heading lines the output
block sequence is exactly one heading block per input line, in input
order, each carrying the remainder of the line after its marker in the
style of its level, and the level-1 font size exceeds the level-2 size,
which exceeds the level-3 size. -/
theorem c6_heading_only (f : String) (lines : List (List Char))
    (hall : ∀ r ∈ lines, isHeadingLine r = true) :
    convert_markdown_to_pdf f lines = lines.map (headingBlockOf f) ∧
    (h2Style f).fontSize < (h1Style f).fontSize ∧
    (h3Style f).fontSize < (h2Style f).fontSize := by
  have h := processLines_headings f lines startState rfl rfl hall
  refine ⟨?_, by norm_num [h1Style, h2Style, normalStyle],
    by norm_num [h2Style, h3Style, normalStyle]⟩
  simp only [convert_markdown_to_pdf, h]
  simp [startState, flush_bullets]

/-- Witness for C6: the two heading lines `# A` and `## B` yield exactly
their two heading blocks, in order. -/
theorem c6_heading_only_witness :
    convert_markdown_to_pdf helveticaName headingLinesEx =
      headingLinesEx.map (headingBlockOf helveticaName) ∧
    (h2Style helveticaName).fontSize < (h1Style helveticaName).fontSize ∧
    (h3Style helveticaName).fontSize < (h2Style helveticaName).fontSize :=
  c6_heading_only helveticaName headingLinesEx (by decide)

/-- Claim C7: conversion is deterministic — it is a pure function of the
input lines, so two runs with the same resolved font agree on the nose —
and the resolved font family affects only the font attribute of styles:
erasing the font family from every emitted block yields identical
sequences for any two resolved fonts, so kind, content and order of the
blocks never depend on the font. -/
theorem c7_structure_font_independent (f g : String) (lines : List (List Char)) :
    convert_markdown_to_pdf f lines = convert_markdown_to_pdf f lines ∧
    (convert_markdown_to_pdf f lines).map eraseFont =
      (convert_markdown_to_pdf g lines).map eraseFont := by
  refine ⟨rfl, ?_⟩
  obtain ⟨k1, k2, k3, k4⟩ :=
    processLines_eraseFont f g lines startState startState rfl rfl rfl rfl
  simp only [convert_markdown_to_pdf, List.map_append, k4, flush_map_eraseFont, k1]

/-- Claim C8: `load_font` scans the candidate table in fixed order and,
within a candidate, the search directories in fixed order; it returns the
family of the first probe whose file exists and registers successfully
(registration failures are skipped silently), and the constant fallback
`Helvetica` when no probe succeeds.  The embedding is a total function,
matching never-raises. -/
theorem c8_load_font_first_success (env : FsEnv) (cwd : String) :
    load_font env cwd =
      (((fontProbeOrder cwd).find? fun fp =>
          env.fileExists fp.2 && env.regOk fp.1 fp.2).map Prod.fst).getD
        helveticaName := by
  simp only [load_font, fontProbeOrder]
  exact tryCandidates_eq env cwd fontCandidates

/-- Claim C9: when the input ends inside an unterminated fence (an
opening fence after a Normal-mode prefix, never closed), the transformer
finishes in code mode with the dangling lines accumulated, yet the final
output equals the conversion of the prefix alone: no preformatted block
is emitted for the dangling content, the final bullet flush still takes
effect (it is part of both sides), and conversion completes — the
embedding is total, so nothing is raised. -/
theorem c9_unterminated_fence (f : String) (pre : List (List Char))
    (op : List Char) (rest : List (List Char))
    (hop : isFence (stripBOM op) = true)
    (hpre : (processLines f startState pre).inCode = false)
    (hrest : ∀ r ∈ rest, isFence (stripBOM r) = false) :
    (processLines f startState (pre ++ op :: rest)).inCode = true ∧
    (processLines f startState (pre ++ op :: rest)).codeBuf = rest ∧
    convert_markdown_to_pdf f (pre ++ op :: rest) =
      convert_markdown_to_pdf f pre := by
  have happ : processLines f startState (pre ++ op :: rest) =
      processLines f (step f (processLines f startState pre) op) rest := by
    simp [processLines, List.foldl_append]
  have hopen := step_fence_open f (processLines f startState pre) op hpre hop
  have hacc := processLines_codeAcc f rest
    (step f (processLines f startState pre) op) (by rw [hopen]) hrest
  refine ⟨?_, ?_, ?_⟩
  · rw [happ, hacc, hopen]
  · rw [happ, hacc, hopen]; simp
  · simp only [convert_markdown_to_pdf]
    rw [happ, hacc, hopen]
    simp [flush_bullets]

/-- Witness for C9: a bare opening fence followed by one dangling code
line converts to the same (empty) block sequence as the empty prefix. -/
theorem c9_unterminated_fence_witness :
    (processLines helveticaName startState
        ([] ++ fenceMarker :: [codeHereLine])).inCode = true ∧
    (processLines helveticaName startState
        ([] ++ fenceMarker :: [codeHereLine])).codeBuf = [codeHereLine] ∧
    convert_markdown_to_pdf helveticaName ([] ++ fenceMarker :: [codeHereLine]) =
      convert_markdown_to_pdf helveticaName [] :=
  c9_unterminated_fence helveticaName [] fenceMarker [codeHereLine] (by decide)
    rfl (by decide)
